import Mathlib

/-!
Verification of the memory-planning core of `torchinductor/codegen/wrapper.py`.

The module plans buffer lifetimes for generated wrapper code: a linear
sequence of lines (plain statements interleaved with memory-planning lines)
is first tail-trimmed, then rewritten by a forward plan pass that discovers
storage reuse through a per-key LIFO pool, and finally rendered to
statements.  We embed the planning data model and every operation the
claims touch as executable Lean definitions, translated directly from the
Python source; assertions and Python runtime errors are modelled by
`Except PlanErr`.
-/

set_option autoImplicit false

namespace Wrapper

/-- Layout kind of a buffer, mirroring `ir.MutationLayout`, `ir.AliasedLayout`
(whose `view` is a `ReinterpretView` with a `data` buffer, carried here as
`viewData`), `ir.MultiOutputLayout`, and any other (simple) layout. -/
inductive Layout (α : Type) where
  | simple : Layout α
  | mutation : Layout α
  | aliased (viewData : α) : Layout α
  | multiOutput : Layout α

/-- An `ir.Buffer`: name, device, dtype, size and stride dimension lists, and
layout.  Sizes are concrete naturals; `V.graph.sizevars.simplify` is the
identity on concrete values. -/
inductive Buffer : Type where
  | mk (name : String) (device : String) (dtype : String)
      (size : List Nat) (stride : List Nat) (layout : Layout Buffer)

def Buffer.name : Buffer → String
  | .mk n _ _ _ _ _ => n

def Buffer.device : Buffer → String
  | .mk _ d _ _ _ _ => d

def Buffer.dtype : Buffer → String
  | .mk _ _ t _ _ _ => t

def Buffer.size : Buffer → List Nat
  | .mk _ _ _ s _ _ => s

def Buffer.stride : Buffer → List Nat
  | .mk _ _ _ _ s _ => s

def Buffer.layout : Buffer → Layout Buffer
  | .mk _ _ _ _ _ l => l

/-- Shared compilation context read by the planner: the removed-buffer set,
graph-input names, named-constant names and the final output names
(`V.graph.removed_buffers`, `V.graph.graph_inputs`, `V.graph.constants`,
`V.graph.get_output_names()`). -/
structure GraphCtx where
  removed : List String
  graph_inputs : List String
  constants : List String
  out_names : List String

abbrev ReuseKey := String × String × Nat

/-- Source `buffer_reuse_key`: `(device, dtype, simplify(product(size)))`. -/
def buffer_reuse_key (b : Buffer) : ReuseKey :=
  (b.device, b.dtype, b.size.prod)

/-- A rendered output statement.  The Python code emits text lines; we keep
their structure so that the names a statement mentions stay visible:
`alloc` is `empty_strided(...)`, `rebind new old` is the line
`new = old; del old`, `reinterpret` is the `as_strided` line followed by
`del old` (split in two here), `release n` is `del n`, `alias` is the
deferred alias binding of an `AliasedLayout` buffer, and `other` is any
plain text line written by collaborators (kernel calls etc.). -/
inductive Stmt where
  | alloc (name : String) (size stride : List Nat) (device dtype : String)
  | rebind (new old : String)
  | reinterpret (new old : String) (size stride : List Nat)
  | release (name : String)
  | alias (name : String)
  | other (s : String)

/-- Whether a rendered statement mentions the buffer name `n`.  Plain text
lines (`other`) are opaque to the model and mention nothing. -/
def Stmt.mentions (n : String) : Stmt → Bool
  | .alloc m _ _ _ _ => m == n
  | .rebind a b => a == n || b == n
  | .reinterpret a b _ _ => a == n || b == n
  | .release m => m == n
  | .alias m => m == n
  | .other _ => false

/-- The closed sum of `MemoryPlanningLine` variants: `AllocateLine`,
`FreeIfNotReusedLine` (with its mutable `is_reused` flag),
`ReuseLine(node, reused_as)`, `FreeLine` and `NullLine`. -/
inductive MemoryPlanningLine where
  | allocate (node : Buffer)
  | freeIfNotReused (node : Buffer) (is_reused : Bool)
  | reuse (node : Buffer) (reused_as : Buffer)
  | free (node : Buffer)
  | null

/-- The `.node.name` attribute access used by the tail-trimming loop.
`NullLine` has no `node` attribute (an `AttributeError` in Python), hence
`none`.  For a `ReuseLine` the `node` field is the old (source) buffer. -/
def MemoryPlanningLine.nodeName? : MemoryPlanningLine → Option String
  | .allocate b => some b.name
  | .freeIfNotReused b _ => some b.name
  | .reuse old _ => some old.name
  | .free b => some b.name
  | .null => none

/-- One entry of `WrapperCodeGen.lines`: either a plain (non-planning)
statement written through `writeline`, or a memory-planning line. -/
inductive WrapperLine where
  | plain (s : Stmt)
  | mpl (l : MemoryPlanningLine)

/-- Whether a wrapper line is a `FreeIfNotReusedLine` (the only line kind
the plan pass ever pushes into the reuse pool). -/
def WrapperLine.isCondFree : WrapperLine → Bool
  | .mpl (.freeIfNotReused _ _) => true
  | _ => false

/-- Failure modes of the core, each an assertion or runtime error of the
Python source. -/
inductive PlanErr where
  | popEmpty
  | popReused
  | pushReused
  | poolCorrupt
  | freeReused
  | oldRemoved
  | trimNull
  | dtypeMismatch
  | removedAtCodegen
  | keyMismatch
deriving DecidableEq

/-- Source `MemoryPlanningState`: `reuse_pool` maps a reuse key to the stack
of pooled `FreeIfNotReusedLine`s (`defaultdict(list)`, absent keys reading
as the empty list).  Python stores the line objects themselves; object
identity is modelled by the line's index in the planned line list, so the
in-place `is_reused` mutation performed through a pooled reference becomes
an update of the planned list at that index. -/
structure MemoryPlanningState where
  reuse_pool : ReuseKey → List Nat

def MemoryPlanningState.init : MemoryPlanningState :=
  ⟨fun _ => []⟩

/-- Source `MemoryPlanningState.pop`: `self.reuse_pool[key].pop()` (an
`IndexError` on an empty stack), then `assert not item.is_reused`.  `done`
is the planned line list the pooled indices refer to; an index that does
not point at a `FreeIfNotReusedLine` is unrepresentable in Python (the pool
only ever holds such lines) and maps to `poolCorrupt`. -/
def MemoryPlanningState.pop (done : List WrapperLine) (s : MemoryPlanningState)
    (key : ReuseKey) : Except PlanErr (Buffer × Nat × MemoryPlanningState) :=
  match (s.reuse_pool key).getLast? with
  | none => .error .popEmpty
  | some j =>
    match done[j]? with
    | some (.mpl (.freeIfNotReused fb false)) =>
        .ok (fb, j, ⟨fun k => if k = key then (s.reuse_pool key).dropLast else s.reuse_pool k⟩)
    | some (.mpl (.freeIfNotReused _ true)) => .error .popReused
    | _ => .error .poolCorrupt

/-- Source `MemoryPlanningState.push`: `assert not item.is_reused`, then
append the item to the key's stack.  The pushed item is identified by its
index `j` in the planned line list together with its `is_reused` flag. -/
def MemoryPlanningState.push (s : MemoryPlanningState) (key : ReuseKey)
    (is_reused : Bool) (j : Nat) : Except PlanErr MemoryPlanningState :=
  if is_reused then .error .pushReused
  else .ok ⟨fun k => if k = key then s.reuse_pool k ++ [j] else s.reuse_pool k⟩

/-- The `plan` method of each `MemoryPlanningLine` variant (pass 1, source
lines 93-154).  `done` is the prefix of already-planned lines (the
current line will sit at index `done.length`); the returned triple is the
rewritten line, the possibly-mutated prefix and the new pool state. -/
def planLine (g : GraphCtx) (done : List WrapperLine) (s : MemoryPlanningState) :
    MemoryPlanningLine →
      Except PlanErr (MemoryPlanningLine × List WrapperLine × MemoryPlanningState)
  | .allocate b =>
    if b.name ∈ g.removed then .ok (.null, done, s)
    else if (s.reuse_pool (buffer_reuse_key b)) ≠ [] then
      match MemoryPlanningState.pop done s (buffer_reuse_key b) with
      | .error e => .error e
      | .ok (fb, j, s1) =>
          .ok (.reuse fb b, done.set j (.mpl (.freeIfNotReused fb true)), s1)
    else .ok (.allocate b, done, s)
  | .freeIfNotReused b r =>
    if r then .error .freeReused
    else if b.name ∈ g.removed then .ok (.null, done, s)
    else
      match s.push (buffer_reuse_key b) r done.length with
      | .error e => .error e
      | .ok s1 => .ok (.freeIfNotReused b r, done, s1)
  | .reuse old new =>
    if new.name ∈ g.removed then
      if old.name ∈ g.removed then .ok (.null, done, s)
      else .ok (.free old, done, s)
    else if old.name ∈ g.removed then .error .oldRemoved
    else .ok (.reuse old new, done, s)
  | .free b =>
    if b.name ∈ g.removed then .ok (.null, done, s)
    else .ok (.free b, done, s)
  | .null => .ok (.null, done, s)

/-- The pass-1 loop of `WrapperCodeGen.generate`: scan the lines left to
right, replacing each planning line by its `plan` result against one shared
pool; plain lines pass through untouched. -/
def planPassGo (g : GraphCtx) :
    List WrapperLine → List WrapperLine → MemoryPlanningState →
      Except PlanErr (List WrapperLine)
  | [], done, _ => .ok done
  | .mpl m :: rest, done, s =>
    match planLine g done s m with
    | .error e => .error e
    | .ok (m1, done1, s1) => planPassGo g rest (done1 ++ [.mpl m1]) s1
  | .plain p :: rest, done, s => planPassGo g rest (done ++ [.plain p]) s

def planPass (g : GraphCtx) (lines : List WrapperLine) :
    Except PlanErr (List WrapperLine) :=
  planPassGo g lines [] MemoryPlanningState.init

/-- Tail trimming worker, operating on the reversed line list: Python pops
the last element while it is a `MemoryPlanningLine` whose `node.name` is not
among the output names.  A trailing `NullLine` would raise an
`AttributeError` (`trimNull`), having no `node`. -/
def trimRev (g : GraphCtx) : List WrapperLine → Except PlanErr (List WrapperLine)
  | [] => .ok []
  | .mpl m :: rest =>
    match m.nodeName? with
    | none => .error .trimNull
    | some n => if n ∈ g.out_names then .ok (.mpl m :: rest) else trimRev g rest
  | .plain p :: rest => .ok (.plain p :: rest)

/-- The tail-trimming loop of `WrapperCodeGen.generate` (source lines
305-311). -/
def trimTail (g : GraphCtx) (lines : List WrapperLine) :
    Except PlanErr (List WrapperLine) :=
  (trimRev g lines.reverse).map List.reverse

/-- Source `make_buffer_reuse old new`: asserts equal dtypes; when `new`
has the same size and stride lists as `old` it renders the rebind line
`new = old; del old`, otherwise the `as_strided` reinterpretation of `old`
with `new`'s shape and stride followed by `del old`. -/
def make_buffer_reuse (old new : Buffer) : Except PlanErr (List Stmt) :=
  if old.dtype = new.dtype then
    if old.size = new.size ∧ old.stride = new.stride then
      .ok [.rebind new.name old.name, .release old.name]
    else
      .ok [.reinterpret new.name old.name new.size new.stride, .release old.name]
  else .error .dtypeMismatch

/-- Source `make_buffer_allocation`: the `empty_strided` statement carrying
name, shape, stride, device and dtype. -/
def make_buffer_allocation (b : Buffer) : Stmt :=
  .alloc b.name b.size b.stride b.device b.dtype

/-- The `codegen` method of each variant (pass 2, source lines 106-158):
every emitting variant first asserts that the buffer names it is about to
write are not in the removed set. -/
def codegenLine (g : GraphCtx) : MemoryPlanningLine → Except PlanErr (List Stmt)
  | .allocate b =>
    if b.name ∈ g.removed then .error .removedAtCodegen
    else .ok [make_buffer_allocation b]
  | .freeIfNotReused b r =>
    if b.name ∈ g.removed then .error .removedAtCodegen
    else if r then .ok [] else .ok [.release b.name]
  | .reuse old new =>
    if old.name ∈ g.removed then .error .removedAtCodegen
    else if new.name ∈ g.removed then .error .removedAtCodegen
    else make_buffer_reuse old new
  | .free b =>
    if b.name ∈ g.removed then .error .removedAtCodegen
    else .ok [.release b.name]
  | .null => .ok []

/-- The pass-2 loop of `WrapperCodeGen.generate`: planning lines render via
`codegen`, plain lines are written verbatim. -/
def codegenPass (g : GraphCtx) : List WrapperLine → Except PlanErr (List Stmt)
  | [] => .ok []
  | .mpl m :: rest =>
    match codegenLine g m with
    | .error e => .error e
    | .ok stmts =>
      match codegenPass g rest with
      | .error e => .error e
      | .ok out => .ok (stmts ++ out)
  | .plain p :: rest =>
    match codegenPass g rest with
    | .error e => .error e
    | .ok out => .ok (p :: out)

/-- The planning portion of `WrapperCodeGen.generate`: tail trim, plan pass,
render pass.  The surrounding header/prologue assembly and the final return
statement are collaborators outside the planning core and are not
modelled. -/
def generate (g : GraphCtx) (lines : List WrapperLine) : Except PlanErr (List Stmt) := do
  let trimmed ← trimTail g lines
  let planned ← planPass g trimmed
  codegenPass g planned

/-- Mutable bookkeeping of `WrapperCodeGen`: the emitted line list and the
`allocated` / `freed` name sets. -/
structure WrapperState where
  lines : List WrapperLine
  allocated : List String
  freed : List String

/-- Source `WrapperCodeGen.can_reuse`: false iff the buffer is removed, a
graph input, a named constant, or already freed. -/
def can_reuse (g : GraphCtx) (st : WrapperState) (b : Buffer) : Bool :=
  if b.name ∈ g.removed ∨ b.name ∈ g.graph_inputs ∨ b.name ∈ g.constants
      ∨ b.name ∈ st.freed then false
  else true

/-- Source `WrapperCodeGen.codegen_free`: no-op unless `can_reuse`; record
the name as freed; an `AliasedLayout` or `MultiOutputLayout` buffer gets an
immediate plain `del` line (never a pooled line), anything else a
`FreeIfNotReusedLine`. -/
def codegen_free (g : GraphCtx) (st : WrapperState) (b : Buffer) : WrapperState :=
  if can_reuse g st b then
    let st1 : WrapperState := { st with freed := b.name :: st.freed }
    match b.layout with
    | .aliased _ =>
        { st1 with lines := st1.lines ++ [.plain (.release b.name)] }
    | .multiOutput =>
        { st1 with lines := st1.lines ++ [.plain (.release b.name)] }
    | _ => { st1 with lines := st1.lines ++ [.mpl (.freeIfNotReused b false)] }
  else st

/-- Source `WrapperCodeGen.codegen_allocation`: memoised per name through
`allocated`; no-op for removed names; `MutationLayout` emits nothing;
`AliasedLayout` recursively allocates the viewed source buffer and then
writes the deferred alias binding; anything else enqueues an
`AllocateLine`. -/
def codegen_allocation (g : GraphCtx) (st : WrapperState) (b : Buffer) : WrapperState :=
  if b.name ∈ g.removed ∨ b.name ∈ st.allocated then st
  else
    let st1 : WrapperState := { st with allocated := b.name :: st.allocated }
    match b with
    | .mk _ _ _ _ _ .mutation => st1
    | .mk _ _ _ _ _ (.aliased v) =>
        let st2 := codegen_allocation g st1 v
        { st2 with lines := st2.lines ++ [.plain (.alias b.name)] }
    | .mk _ _ _ _ _ .simple => { st1 with lines := st1.lines ++ [.mpl (.allocate b)] }
    | .mk _ _ _ _ _ .multiOutput => { st1 with lines := st1.lines ++ [.mpl (.allocate b)] }
termination_by sizeOf b
decreasing_by
  simp
  omega

/-- Source `WrapperCodeGen.codegen_inplace_reuse`: asserts that input and
output share a reuse key, force-allocates the input, marks the input freed
and the output allocated, and enqueues a `ReuseLine(input, output)`. -/
def codegen_inplace_reuse (g : GraphCtx) (st : WrapperState)
    (input output : Buffer) : Except PlanErr WrapperState :=
  if buffer_reuse_key input = buffer_reuse_key output then
    let st1 := codegen_allocation g st input
    let st2 : WrapperState :=
      { st1 with freed := input.name :: st1.freed,
                 allocated := output.name :: st1.allocated }
    .ok { st2 with lines := st2.lines ++ [.mpl (.reuse input output)] }
  else .error .keyMismatch

/-- Whether an `Except` result is the pop-from-empty-stack failure. -/
def popEmptyErr {α : Type} : Except PlanErr α → Bool
  | .error .popEmpty => true
  | _ => false

end Wrapper

namespace Wrapper

/-! ### Helper lemmas (shared) -/

/-- The memo set `allocated` only grows across `codegen_allocation`. -/
theorem codegen_allocation_allocated_mono (g : GraphCtx) (x : String) :
    ∀ (st : WrapperState) (b : Buffer),
      x ∈ st.allocated → x ∈ (codegen_allocation g st b).allocated := by
  intro st b
  induction st, b using codegen_allocation.induct g with
  | case1 st b h =>
    intro hx
    unfold codegen_allocation
    simp only [if_pos h]
    exact hx
  | case2 st n d t sz sr h =>
    intro hx
    unfold codegen_allocation
    simp only [if_neg h]
    exact List.mem_cons_of_mem _ hx
  | case3 st n d t sz sr v h st1 ih =>
    intro hx
    unfold codegen_allocation
    simp only [if_neg h]
    exact ih (List.mem_cons_of_mem _ hx)
  | case4 st n d t sz sr h =>
    intro hx
    unfold codegen_allocation
    simp only [if_neg h]
    exact List.mem_cons_of_mem _ hx
  | case5 st n d t sz sr h =>
    intro hx
    unfold codegen_allocation
    simp only [if_neg h]
    exact List.mem_cons_of_mem _ hx

/-- After `codegen_allocation` the buffer's name is memoised (unless the
buffer is removed, in which case the call was a no-op anyway). -/
theorem codegen_allocation_name_mem (g : GraphCtx) (st : WrapperState) (b : Buffer) :
    b.name ∈ g.removed ∨ b.name ∈ (codegen_allocation g st b).allocated := by
  by_cases h : b.name ∈ g.removed ∨ b.name ∈ st.allocated
  · rcases h with h | h
    · exact Or.inl h
    · by_cases hr : b.name ∈ g.removed
      · exact Or.inl hr
      · refine Or.inr ?_
        unfold codegen_allocation
        rw [if_pos (Or.inr h)]
        exact h
  · refine Or.inr ?_
    unfold codegen_allocation
    rw [if_neg h]
    obtain ⟨n, d, t, sz, sr, ly⟩ := b
    cases ly with
    | simple => exact List.mem_cons_self _ _
    | mutation => exact List.mem_cons_self _ _
    | multiOutput => exact List.mem_cons_self _ _
    | aliased v =>
      exact codegen_allocation_allocated_mono g _ _ v (List.mem_cons_self _ _)

/-- Every line `codegen_allocation` appends is an allocation or an alias
binding, never a pooled `FreeIfNotReusedLine`. -/
theorem codegen_allocation_lines_no_condfree (g : GraphCtx) :
    ∀ (st : WrapperState) (b : Buffer),
      ∀ l ∈ (codegen_allocation g st b).lines, l ∈ st.lines ∨ l.isCondFree = false := by
  intro st b
  induction st, b using codegen_allocation.induct g with
  | case1 st b h =>
    intro l hl
    unfold codegen_allocation at hl
    rw [if_pos h] at hl
    exact Or.inl hl
  | case2 st n d t sz sr h =>
    intro l hl
    unfold codegen_allocation at hl
    rw [if_neg h] at hl
    exact Or.inl hl
  | case3 st n d t sz sr v h st1 ih =>
    intro l hl
    unfold codegen_allocation at hl
    rw [if_neg h] at hl
    simp only [List.mem_append, List.mem_singleton] at hl
    rcases hl with hl | hl
    · exact ih l hl
    · subst hl
      exact Or.inr rfl
  | case4 st n d t sz sr h =>
    intro l hl
    unfold codegen_allocation at hl
    rw [if_neg h] at hl
    simp only [List.mem_append, List.mem_singleton] at hl
    rcases hl with hl | hl
    · exact Or.inl hl
    · subst hl
      exact Or.inr rfl
  | case5 st n d t sz sr h =>
    intro l hl
    unfold codegen_allocation at hl
    rw [if_neg h] at hl
    simp only [List.mem_append, List.mem_singleton] at hl
    rcases hl with hl | hl
    · exact Or.inl hl
    · subst hl
      exact Or.inr rfl

/-! ### Sample concrete objects used by witnesses and counterexamples -/

def bufF1 : Buffer := .mk "buf0" "cuda" "f32" [4, 4] [4, 1] .simple

def bufF2 : Buffer := .mk "buf1" "cuda" "f32" [16] [1] .simple

def bufA : Buffer := .mk "buf2" "cuda" "f32" [2, 8] [8, 1] .simple

def bufB : Buffer := .mk "buf3" "cuda" "f32" [16] [1] .simple

def bufSame : Buffer := .mk "buf4" "cuda" "f32" [16] [1] .simple

def ctx0 : GraphCtx := ⟨[], [], [], ["buf3"]⟩

end Wrapper

namespace Wrapper

/-- Claim C8: allocation requests are idempotent per buffer name: invoking
the allocation request a second time for the same buffer leaves the wrapper
state (lines and memo sets) unchanged, so at most one allocation line is
enqueued and at most one allocation statement is rendered. -/
theorem codegen_allocation_idempotent (g : GraphCtx) (st : WrapperState) (b : Buffer) :
    codegen_allocation g (codegen_allocation g st b) b = codegen_allocation g st b := by
  by_cases h : b.name ∈ g.removed ∨ b.name ∈ st.allocated
  · have h1 : codegen_allocation g st b = st := by
      unfold codegen_allocation
      rw [if_pos h]
    rw [h1]
    exact h1
  · have h2 : b.name ∈ g.removed ∨ b.name ∈ (codegen_allocation g st b).allocated :=
      codegen_allocation_name_mem g st b
    conv_lhs => rw [codegen_allocation.eq_def]
    rw [if_pos h2]

/-- Planning a single line can fail, but never with the pop-from-empty
error: the only pop is guarded by the pool containment check. -/
theorem planLine_no_popEmpty (g : GraphCtx) (done : List WrapperLine)
    (s : MemoryPlanningState) (m : MemoryPlanningLine) :
    popEmptyErr (planLine g done s m) = false := by
  cases m with
  | allocate b =>
    simp only [planLine]
    by_cases hr : b.name ∈ g.removed
    · simp [hr, popEmptyErr]
    · rw [if_neg hr]
      by_cases hp : s.reuse_pool (buffer_reuse_key b) ≠ []
      · rw [if_pos hp]
        unfold MemoryPlanningState.pop
        cases hq : (s.reuse_pool (buffer_reuse_key b)).getLast? with
        | none =>
          exact absurd (List.getLast?_eq_none_iff.mp hq) hp
        | some j =>
          cases hd : done[j]? with
          | none => simp [hd, popEmptyErr]
          | some l =>
            cases l with
            | plain p => simp [hd, popEmptyErr]
            | mpl ml =>
              cases ml with
              | allocate c => simp [hd, popEmptyErr]
              | freeIfNotReused fb r => cases r <;> simp [hd, popEmptyErr]
              | reuse c1 c2 => simp [hd, popEmptyErr]
              | free c => simp [hd, popEmptyErr]
              | null => simp [hd, popEmptyErr]
      · rw [if_neg hp]
        simp [popEmptyErr]
  | freeIfNotReused b r =>
    simp only [planLine]
    cases r with
    | true => simp [popEmptyErr]
    | false =>
      by_cases hr : b.name ∈ g.removed <;>
        simp [hr, popEmptyErr, MemoryPlanningState.push]
  | reuse old new =>
    simp only [planLine]
    by_cases h1 : new.name ∈ g.removed <;> by_cases h2 : old.name ∈ g.removed <;>
      simp [h1, h2, popEmptyErr]
  | free b =>
    simp only [planLine]
    by_cases hr : b.name ∈ g.removed <;> simp [hr, popEmptyErr]
  | null => simp [planLine, popEmptyErr]

/-- Claim C10: during pass 1 the Pool pop is only invoked after the
containment check `key in state`, so the pop of the underlying per-key
list never fails on an empty stack in any plan pass, from any starting
state. -/
theorem plan_pass_no_pop_from_empty (g : GraphCtx) :
    (∀ (lines done : List WrapperLine) (s : MemoryPlanningState),
        popEmptyErr (planPassGo g lines done s) = false) ∧
    ∀ lines : List WrapperLine, popEmptyErr (planPass g lines) = false := by
  have hgo : ∀ (lines done : List WrapperLine) (s : MemoryPlanningState),
      popEmptyErr (planPassGo g lines done s) = false := by
    intro lines
    induction lines with
    | nil => intro done s; simp [planPassGo, popEmptyErr]
    | cons l rest ih =>
      intro done s
      cases l with
      | plain p =>
        simp only [planPassGo]
        exact ih _ _
      | mpl m =>
        simp only [planPassGo]
        cases hres : planLine g done s m with
        | error e =>
          have := planLine_no_popEmpty g done s m
          rw [hres] at this
          cases e <;> simp_all [popEmptyErr]
        | ok triple =>
          obtain ⟨m1, done1, s1⟩ := triple
          simpa using ih _ _
  exact ⟨hgo, fun lines => hgo lines [] MemoryPlanningState.init⟩

end Wrapper

namespace Wrapper

/-- Whether a layout shares its storage (AliasedLayout / MultiOutputLayout). -/
def Layout.sharesStorage {α : Type} : Layout α → Bool
  | .aliased _ => true
  | .multiOutput => true
  | _ => false

/-- Whether a statement is a reinterpretation (`as_strided`) statement. -/
def Stmt.isReinterpret : Stmt → Bool
  | .reinterpret _ _ _ _ => true
  | _ => false

/-- Claim C9: fatal contract violations abort: popping a Pool entry already
marked reused, pushing an entry already marked reused, rendering a reuse
pair whose buffers have different element types, and an inplace-reuse
request whose buffers have different reuse keys each fail an assertion and
abort instead of producing output. -/
theorem fatal_contract_violations :
    (∀ (done : List WrapperLine) (s : MemoryPlanningState) (key : ReuseKey)
        (j : Nat) (b : Buffer),
        (s.reuse_pool key).getLast? = some j →
        done[j]? = some (.mpl (.freeIfNotReused b true)) →
        MemoryPlanningState.pop done s key = .error .popReused) ∧
    (∀ (s : MemoryPlanningState) (key : ReuseKey) (j : Nat),
        MemoryPlanningState.push s key true j = .error .pushReused) ∧
    (∀ old new : Buffer, old.dtype ≠ new.dtype →
        make_buffer_reuse old new = .error .dtypeMismatch) ∧
    (∀ (g : GraphCtx) (st : WrapperState) (i o : Buffer),
        buffer_reuse_key i ≠ buffer_reuse_key o →
        codegen_inplace_reuse g st i o = .error .keyMismatch) := by
  refine ⟨?_, ?_, ?_, ?_⟩
  · intro done s key j b hq hd
    simp [MemoryPlanningState.pop, hq, hd]
  · intro s key j
    simp [MemoryPlanningState.push]
  · intro old new hd
    simp [make_buffer_reuse, hd]
  · intro g st i o hk
    simp [codegen_inplace_reuse, hk]

theorem fatal_contract_violations_witness :
    MemoryPlanningState.pop [.mpl (.freeIfNotReused bufF1 true)]
        ⟨fun _ => [0]⟩ ("cuda", "f32", 16) = .error .popReused ∧
    MemoryPlanningState.push MemoryPlanningState.init ("cuda", "f32", 16) true 0
        = .error .pushReused ∧
    make_buffer_reuse bufF1 (.mk "x" "cuda" "i64" [16] [1] .simple)
        = .error .dtypeMismatch ∧
    codegen_inplace_reuse ctx0 ⟨[], [], []⟩ bufF1 (.mk "x" "cuda" "f32" [8] [1] .simple)
        = .error .keyMismatch :=
  ⟨fatal_contract_violations.1 _ _ _ 0 bufF1 rfl rfl,
   fatal_contract_violations.2.1 _ _ 0,
   fatal_contract_violations.2.2.1 _ _ (by decide),
   fatal_contract_violations.2.2.2 _ _ _ _ (by decide)⟩

/-- Claim C5: a free request for buffer b is a no-op when b is removed, a
graph input, a named constant, or already freed; otherwise a View-alias or
Multi-output layout gets an immediate unconditional release (a plain del
line, which never enters the Pool because plan-pass pushes happen only for
FreeIfNotReused lines), and every remaining layout enqueues a
ConditionallyFree line whose reuse decision is deferred to the Pool. -/
theorem codegen_free_spec (g : GraphCtx) (st : WrapperState) (b : Buffer) :
    (b.name ∈ g.removed ∨ b.name ∈ g.graph_inputs ∨ b.name ∈ g.constants ∨
        b.name ∈ st.freed → codegen_free g st b = st) ∧
    (¬(b.name ∈ g.removed ∨ b.name ∈ g.graph_inputs ∨ b.name ∈ g.constants ∨
        b.name ∈ st.freed) → b.layout.sharesStorage = true →
        codegen_free g st b =
          { lines := st.lines ++ [.plain (.release b.name)],
            allocated := st.allocated, freed := b.name :: st.freed }) ∧
    (¬(b.name ∈ g.removed ∨ b.name ∈ g.graph_inputs ∨ b.name ∈ g.constants ∨
        b.name ∈ st.freed) → b.layout.sharesStorage = false →
        codegen_free g st b =
          { lines := st.lines ++ [.mpl (.freeIfNotReused b false)],
            allocated := st.allocated, freed := b.name :: st.freed }) := by
  refine ⟨?_, ?_, ?_⟩
  · intro h
    have hf : can_reuse g st b = false := by
      unfold can_reuse
      rw [if_pos h]
    unfold codegen_free
    rw [hf, if_neg Bool.false_ne_true]
  · intro h hl
    have ht : can_reuse g st b = true := by
      unfold can_reuse
      rw [if_neg h]
    unfold codegen_free
    rw [ht]
    obtain ⟨n, d, t, sz, sr, ly⟩ := b
    cases ly <;> simp_all [Layout.sharesStorage, Buffer.name, Buffer.layout]
  · intro h hl
    have ht : can_reuse g st b = true := by
      unfold can_reuse
      rw [if_neg h]
    unfold codegen_free
    rw [ht]
    obtain ⟨n, d, t, sz, sr, ly⟩ := b
    cases ly <;> simp_all [Layout.sharesStorage, Buffer.name, Buffer.layout]

theorem codegen_free_spec_witness :
    can_reuse ctx0 ⟨[], [], []⟩ (Buffer.mk "v" "cuda" "f32" [4] [1] (.aliased bufF1)) = true ∧
    (Buffer.mk "v" "cuda" "f32" [4] [1] (.aliased bufF1)).layout.sharesStorage = true ∧
    codegen_free ctx0 ⟨[], [], []⟩ (Buffer.mk "v" "cuda" "f32" [4] [1] (.aliased bufF1)) =
      { lines := [.plain (.release "v")], allocated := [], freed := ["v"] } ∧
    can_reuse ctx0 ⟨[], [], []⟩ bufF1 = true ∧
    bufF1.layout.sharesStorage = false ∧
    codegen_free ctx0 ⟨[], [], []⟩ bufF1 =
      { lines := [.mpl (.freeIfNotReused bufF1 false)], allocated := [], freed := ["buf0"] } ∧
    can_reuse ctx0 ⟨[], [], ["buf0"]⟩ bufF1 = false ∧
    codegen_free ctx0 ⟨[], [], ["buf0"]⟩ bufF1 = ⟨[], [], ["buf0"]⟩ :=
  ⟨rfl, rfl,
   by
    have h := (codegen_free_spec ctx0 ⟨[], [], []⟩
      (Buffer.mk "v" "cuda" "f32" [4] [1] (.aliased bufF1))).2.1 (by decide) rfl
    simpa using h,
   rfl, rfl,
   by
    have h := (codegen_free_spec ctx0 ⟨[], [], []⟩ bufF1).2.2 (by decide) rfl
    simpa using h,
   rfl,
   by
    have h := (codegen_free_spec ctx0 ⟨[], [], ["buf0"]⟩ bufF1).1 (by decide)
    simpa using h⟩

end Wrapper

namespace Wrapper

/-- Claim C4: rendering a Reuse(old, new) line emits a direct rebind of
new to old followed by release of old's name when new's size and stride
sequences are both identical to old's — with no reinterpretation
statement — and otherwise emits an as_strided reinterpretation of old's
storage with new's shape and stride followed by release of old's name. -/
theorem reuse_render_spec (g : GraphCtx) (old new : Buffer)
    (h1 : old.name ∉ g.removed) (h2 : new.name ∉ g.removed)
    (hd : old.dtype = new.dtype) :
    (old.size = new.size ∧ old.stride = new.stride →
        codegenLine g (.reuse old new) =
          .ok [.rebind new.name old.name, .release old.name] ∧
        ∀ s ∈ [Stmt.rebind new.name old.name, Stmt.release old.name],
          s.isReinterpret = false) ∧
    (¬(old.size = new.size ∧ old.stride = new.stride) →
        codegenLine g (.reuse old new) =
          .ok [.reinterpret new.name old.name new.size new.stride,
               .release old.name]) := by
  constructor
  · intro hsame
    constructor
    · simp [codegenLine, h1, h2, make_buffer_reuse, hd, hsame]
    · intro s hs
      simp only [List.mem_cons, List.not_mem_nil, or_false] at hs
      rcases hs with hs | hs <;> subst hs <;> rfl
  · intro hdiff
    simp [codegenLine, h1, h2, make_buffer_reuse, hd, hdiff]

theorem reuse_render_spec_witness :
    ((bufF2.name ∉ ctx0.removed) ∧ (bufSame.name ∉ ctx0.removed) ∧
      bufF2.dtype = bufSame.dtype ∧
      bufF2.size = bufSame.size ∧ bufF2.stride = bufSame.stride ∧
      codegenLine ctx0 (.reuse bufF2 bufSame) =
        .ok [.rebind "buf4" "buf1", .release "buf1"]) ∧
    ((bufF1.name ∉ ctx0.removed) ∧ (bufB.name ∉ ctx0.removed) ∧
      bufF1.dtype = bufB.dtype ∧
      ¬(bufF1.size = bufB.size ∧ bufF1.stride = bufB.stride) ∧
      codegenLine ctx0 (.reuse bufF1 bufB) =
        .ok [.reinterpret "buf3" "buf0" [16] [1], .release "buf0"]) :=
  ⟨⟨by decide, by decide, rfl, rfl, rfl,
    by
      have h := (reuse_render_spec ctx0 bufF2 bufSame (by decide) (by decide) rfl).1
        ⟨rfl, rfl⟩
      simpa using h.1⟩,
   ⟨by decide, by decide, rfl, by decide,
    by
      have h := (reuse_render_spec ctx0 bufF1 bufB (by decide) (by decide) rfl).2
        (by decide)
      simpa using h⟩⟩

/-- Claim C3 (amended): a Reuse(old, new) line whose new buffer is in the
removed set degrades in pass 1 to the planned form of
UnconditionalFree(old): UnconditionalFree(old) when old is not removed,
and NoOp when old is also removed; when new is not removed the line is
unchanged and it is a fatal error for old to be in the removed set. -/
theorem reuse_plan_spec (g : GraphCtx) (done : List WrapperLine)
    (s : MemoryPlanningState) (old new : Buffer) :
    (new.name ∈ g.removed → old.name ∉ g.removed →
        planLine g done s (.reuse old new) = .ok (.free old, done, s)) ∧
    (new.name ∈ g.removed → old.name ∈ g.removed →
        planLine g done s (.reuse old new) = .ok (.null, done, s)) ∧
    (new.name ∉ g.removed → old.name ∉ g.removed →
        planLine g done s (.reuse old new) = .ok (.reuse old new, done, s)) ∧
    (new.name ∉ g.removed → old.name ∈ g.removed →
        planLine g done s (.reuse old new) = .error .oldRemoved) := by
  refine ⟨?_, ?_, ?_, ?_⟩ <;> intro hn ho <;> simp [planLine, hn, ho]

theorem reuse_plan_spec_witness :
    ("buf3" ∈ (GraphCtx.mk ["buf3"] [] [] []).removed ∧
      "buf0" ∉ (GraphCtx.mk ["buf3"] [] [] []).removed ∧
      planLine (GraphCtx.mk ["buf3"] [] [] []) [] MemoryPlanningState.init
          (.reuse bufF1 bufB) = .ok (.free bufF1, [], MemoryPlanningState.init)) ∧
    ("buf3" ∉ ctx0.removed ∧ "buf0" ∈ (GraphCtx.mk ["buf0"] [] [] []).removed ∧
      planLine (GraphCtx.mk ["buf0"] [] [] []) [] MemoryPlanningState.init
          (.reuse bufF1 bufB) = .error .oldRemoved) :=
  ⟨⟨by decide, by decide,
    (reuse_plan_spec (GraphCtx.mk ["buf3"] [] [] []) [] MemoryPlanningState.init
        bufF1 bufB).1 (by decide) (by decide)⟩,
   ⟨by decide, by decide,
    (reuse_plan_spec (GraphCtx.mk ["buf0"] [] [] []) [] MemoryPlanningState.init
        bufF1 bufB).2.2.2 (by decide) (by decide)⟩⟩

/-- Claim C3 counterexample: when the old buffer is also removed, pass 1
turns Reuse(old, new) into NoOp, not UnconditionalFree(old), so old's
storage release is not emitted. -/
theorem reuse_plan_both_removed_counterexample :
    "buf3" ∈ (GraphCtx.mk ["buf0", "buf3"] [] [] []).removed ∧
    planLine (GraphCtx.mk ["buf0", "buf3"] [] [] []) [] MemoryPlanningState.init
        (.reuse bufF1 bufB) = .ok (.null, [], MemoryPlanningState.init) ∧
    MemoryPlanningLine.null ≠ MemoryPlanningLine.free bufF1 ∧
    codegenLine (GraphCtx.mk ["buf0", "buf3"] [] [] []) .null = .ok [] := by
  refine ⟨by decide, rfl, ?_, rfl⟩
  intro h
  cases h

end Wrapper

namespace Wrapper

/-- Claim C1: LIFO reuse.  When two ConditionallyFree lines for
reuse-compatible buffers `F1` then `F2` (in program order) are planned and
both enter the Pool before the next Allocate line with the same reuse key,
that Allocate is rewritten to reuse `F2`'s buffer (not `F1`'s), and the
subsequent compatible Allocate reuses `F1`'s buffer — for any already
planned prefix `done0` and any prior pool state `s0`. -/
theorem lifo_reuse_plan (g : GraphCtx) (s0 : MemoryPlanningState)
    (done0 : List WrapperLine) (F1 F2 b b2 : Buffer)
    (h1 : F1.name ∉ g.removed) (h2 : F2.name ∉ g.removed)
    (hb : b.name ∉ g.removed) (hb2 : b2.name ∉ g.removed)
    (k2 : buffer_reuse_key F2 = buffer_reuse_key F1)
    (kb : buffer_reuse_key b = buffer_reuse_key F1)
    (kb2 : buffer_reuse_key b2 = buffer_reuse_key F1) :
    planPassGo g
        [.mpl (.freeIfNotReused F1 false), .mpl (.freeIfNotReused F2 false),
         .mpl (.allocate b), .mpl (.allocate b2)] done0 s0
      = .ok (done0 ++
             [.mpl (.freeIfNotReused F1 true), .mpl (.freeIfNotReused F2 true),
              .mpl (.reuse F2 b), .mpl (.reuse F1 b2)]) := by
  have hget0 : ∀ (l : List WrapperLine) (a : WrapperLine) (rest : List WrapperLine),
      (l ++ a :: rest)[l.length]? = some a := by
    intro l a rest
    rw [List.getElem?_append_right (le_refl l.length)]
    simp
  have hget1 : ∀ (l : List WrapperLine) (a c : WrapperLine) (rest : List WrapperLine),
      (l ++ a :: c :: rest)[l.length + 1]? = some c := by
    intro l a c rest
    rw [List.getElem?_append_right (Nat.le_succ l.length)]
    simp
  have hset0 : ∀ (l : List WrapperLine) (a d : WrapperLine) (rest : List WrapperLine),
      (l ++ a :: rest).set l.length d = l ++ d :: rest := by
    intro l a d rest
    induction l with
    | nil => rfl
    | cons x xs ih => simp [List.set, ih]
  have hset1 : ∀ (l : List WrapperLine) (a c d : WrapperLine) (rest : List WrapperLine),
      (l ++ a :: c :: rest).set (l.length + 1) d = l ++ a :: d :: rest := by
    intro l a c d rest
    induction l with
    | nil => simp [List.set]
    | cons x xs ih => simp [List.set, ih]
  simp [planPassGo, planLine, MemoryPlanningState.push, MemoryPlanningState.pop,
        h1, h2, hb, hb2, k2, kb, kb2, List.getLast?_concat, List.dropLast_concat,
        List.append_assoc, hget0, hget1, hset0, hset1]

end Wrapper

namespace Wrapper

theorem lifo_reuse_plan_witness :
    planPassGo ctx0
        [.mpl (.freeIfNotReused bufF1 false), .mpl (.freeIfNotReused bufF2 false),
         .mpl (.allocate bufA), .mpl (.allocate bufB)]
        [.plain (.other "k0")] MemoryPlanningState.init
      = .ok ([.plain (.other "k0")] ++
             [.mpl (.freeIfNotReused bufF1 true), .mpl (.freeIfNotReused bufF2 true),
              .mpl (.reuse bufF2 bufA), .mpl (.reuse bufF1 bufB)]) :=
  lifo_reuse_plan ctx0 MemoryPlanningState.init [.plain (.other "k0")]
    bufF1 bufF2 bufA bufB
    (by decide) (by decide) (by decide) (by decide) rfl rfl rfl

/-- Worker lemma for the trimming loop: a successful trim splits the
reversed list into a dropped prefix of non-output planning lines and a
kept remainder whose first line, if a planning line, names an output. -/
theorem trimRev_spec (g : GraphCtx) :
    ∀ (l res : List WrapperLine), trimRev g l = .ok res →
      (∃ pre, l = pre ++ res ∧
        ∀ x ∈ pre, ∃ m n, x = .mpl m ∧ m.nodeName? = some n ∧ n ∉ g.out_names) ∧
      (∀ m, res.head? = some (.mpl m) →
        ∃ n, m.nodeName? = some n ∧ n ∈ g.out_names) := by
  intro l
  induction l with
  | nil =>
    intro res h
    simp only [trimRev] at h
    cases h
    exact ⟨⟨[], rfl, by simp⟩, by simp⟩
  | cons x rest ih =>
    intro res h
    cases x with
    | plain p =>
      simp only [trimRev] at h
      cases h
      refine ⟨⟨[], rfl, by simp⟩, ?_⟩
      intro m hm
      simp at hm
    | mpl m =>
      simp only [trimRev] at h
      cases hm : m.nodeName? with
      | none =>
        rw [hm] at h
        simp at h
      | some n =>
        rw [hm] at h
        by_cases hout : n ∈ g.out_names
        · simp only [hout, if_true] at h
          cases h
          refine ⟨⟨[], rfl, by simp⟩, ?_⟩
          intro m1 hm1
          simp only [List.head?_cons, Option.some.injEq, WrapperLine.mpl.injEq] at hm1
          subst hm1
          exact ⟨n, hm, hout⟩
        · simp only [hout, if_false] at h
          obtain ⟨⟨pre, hpre, hall⟩, hhead⟩ := ih res h
          refine ⟨⟨.mpl m :: pre, by simp [hpre], ?_⟩, hhead⟩
          intro x hx
          rcases List.mem_cons.mp hx with hx | hx
          · exact ⟨m, n, hx, hm, hout⟩
          · exact hall x hx

end Wrapper

namespace Wrapper

/-- Claim C2 (amended): before pass 1 the planner removes a contiguous
suffix of the line sequence consisting of Planning-Lines whose `node`
buffer (for a Reuse line the old source buffer, not the produced buffer)
is not in the final-output set, and it never removes a trailing
Planning-Line whose `node` buffer is in the output set. -/
theorem trimTail_spec (g : GraphCtx) (lines res : List WrapperLine)
    (h : trimTail g lines = .ok res) :
    (∃ suffix, lines = res ++ suffix ∧
      ∀ x ∈ suffix, ∃ m n, x = .mpl m ∧ m.nodeName? = some n ∧ n ∉ g.out_names) ∧
    (∀ m, res.getLast? = some (.mpl m) →
      ∃ n, m.nodeName? = some n ∧ n ∈ g.out_names) := by
  unfold trimTail at h
  cases htr : trimRev g lines.reverse with
  | error e =>
    rw [htr] at h
    simp [Except.map] at h
  | ok r0 =>
    rw [htr] at h
    simp only [Except.map] at h
    cases h
    obtain ⟨⟨pre, hpre, hall⟩, hhead⟩ := trimRev_spec g lines.reverse r0 htr
    constructor
    · refine ⟨pre.reverse, ?_, ?_⟩
      · have hrr : lines.reverse.reverse = (pre ++ r0).reverse := by rw [hpre]
        simpa [List.reverse_append] using hrr
      · intro x hx
        exact hall x (List.mem_reverse.mp hx)
    · intro m hm
      rw [List.getLast?_reverse] at hm
      exact hhead m hm

theorem trimTail_spec_witness :
    (∃ suffix,
        [WrapperLine.plain (.other "k"), .mpl (.allocate bufB), .mpl (.allocate bufF1)]
          = [WrapperLine.plain (.other "k"), .mpl (.allocate bufB)] ++ suffix ∧
        ∀ x ∈ suffix, ∃ m n, x = WrapperLine.mpl m ∧ m.nodeName? = some n ∧
          n ∉ ctx0.out_names) ∧
    (∀ m, [WrapperLine.plain (.other "k"), .mpl (.allocate bufB)].getLast?
        = some (.mpl m) →
      ∃ n, m.nodeName? = some n ∧ n ∈ ctx0.out_names) :=
  trimTail_spec ctx0 _ _ rfl

/-- Claim C2 counterexample: a trailing ReuseLine whose produced buffer is
a program output is elided anyway, because the trim test reads the `node`
(old) buffer, refuting the claim that a last line producing a program
output is never elided. -/
theorem trim_elides_trailing_output_reuse_counterexample :
    bufB.name ∈ ctx0.out_names ∧
    trimTail ctx0 [.mpl (.reuse bufF1 bufB)] = .ok [] ∧
    generate ctx0 [.mpl (.reuse bufF1 bufB)] = .ok [] :=
  ⟨by decide, rfl, rfl⟩

end Wrapper

namespace Wrapper

/-- Rendering a single planning line succeeds only after its removed-set
assertions pass, so the emitted statements mention no removed name. -/
theorem codegenLine_not_mentions_removed (g : GraphCtx) (r : String)
    (hr : r ∈ g.removed) (m : MemoryPlanningLine) (out : List Stmt)
    (h : codegenLine g m = .ok out) : ∀ s ∈ out, s.mentions r = false := by
  cases m with
  | allocate b =>
    simp only [codegenLine] at h
    by_cases hb : b.name ∈ g.removed
    · rw [if_pos hb] at h
      cases h
    · rw [if_neg hb] at h
      cases h
      have hne : b.name ≠ r := fun hc => hb (hc ▸ hr)
      intro s hs
      simp only [List.mem_singleton] at hs
      subst hs
      simp [make_buffer_allocation, Stmt.mentions, hne]
  | freeIfNotReused b fl =>
    simp only [codegenLine] at h
    by_cases hb : b.name ∈ g.removed
    · rw [if_pos hb] at h
      cases h
    · rw [if_neg hb] at h
      have hne : b.name ≠ r := fun hc => hb (hc ▸ hr)
      cases fl with
      | true =>
        rw [if_pos rfl] at h
        cases h
        intro s hs
        simp at hs
      | false =>
        rw [if_neg Bool.false_ne_true] at h
        cases h
        intro s hs
        simp only [List.mem_singleton] at hs
        subst hs
        simp [Stmt.mentions, hne]
  | reuse old new =>
    simp only [codegenLine] at h
    by_cases ho : old.name ∈ g.removed
    · rw [if_pos ho] at h
      cases h
    · rw [if_neg ho] at h
      by_cases hn : new.name ∈ g.removed
      · rw [if_pos hn] at h
        cases h
      · rw [if_neg hn] at h
        have hne1 : old.name ≠ r := fun hc => ho (hc ▸ hr)
        have hne2 : new.name ≠ r := fun hc => hn (hc ▸ hr)
        simp only [make_buffer_reuse] at h
        by_cases hd : old.dtype = new.dtype
        · rw [if_pos hd] at h
          by_cases hs : old.size = new.size ∧ old.stride = new.stride
          · rw [if_pos hs] at h
            cases h
            intro s hs1
            simp only [List.mem_cons, List.not_mem_nil, or_false] at hs1
            rcases hs1 with hs1 | hs1 <;> subst hs1 <;> simp [Stmt.mentions, hne1, hne2]
          · rw [if_neg hs] at h
            cases h
            intro s hs1
            simp only [List.mem_cons, List.not_mem_nil, or_false] at hs1
            rcases hs1 with hs1 | hs1 <;> subst hs1 <;> simp [Stmt.mentions, hne1, hne2]
        · rw [if_neg hd] at h
          cases h
  | free b =>
    simp only [codegenLine] at h
    by_cases hb : b.name ∈ g.removed
    · rw [if_pos hb] at h
      cases h
    · rw [if_neg hb] at h
      cases h
      have hne : b.name ≠ r := fun hc => hb (hc ▸ hr)
      intro s hs
      simp only [List.mem_singleton] at hs
      subst hs
      simp [Stmt.mentions, hne]
  | null =>
    simp only [codegenLine] at h
    cases h
    intro s hs
    simp at hs

/-- The render pass emits only statements from planning lines or the plain
lines already present. -/
theorem codegenPass_not_mentions (g : GraphCtx) (r : String) (hr : r ∈ g.removed) :
    ∀ (lines : List WrapperLine) (out : List Stmt),
      (∀ p, WrapperLine.plain p ∈ lines → p.mentions r = false) →
      codegenPass g lines = .ok out → ∀ s ∈ out, s.mentions r = false := by
  intro lines
  induction lines with
  | nil =>
    intro out hplain h
    simp only [codegenPass] at h
    cases h
    intro s hs
    simp at hs
  | cons x rest ih =>
    intro out hplain h
    cases x with
    | plain p =>
      simp only [codegenPass] at h
      cases hrec : codegenPass g rest with
      | error e =>
        rw [hrec] at h
        cases h
      | ok out1 =>
        rw [hrec] at h
        cases h
        intro s hs
        rcases List.mem_cons.mp hs with hs | hs
        · subst hs
          exact hplain _ (List.mem_cons_self _ _)
        · exact ih out1 (fun q hq => hplain q (List.mem_cons_of_mem _ hq)) hrec s hs
    | mpl m =>
      simp only [codegenPass] at h
      cases hline : codegenLine g m with
      | error e =>
        rw [hline] at h
        cases h
      | ok stmts =>
        rw [hline] at h
        cases hrec : codegenPass g rest with
        | error e =>
          rw [hrec] at h
          cases h
        | ok out1 =>
          rw [hrec] at h
          cases h
          intro s hs
          rcases List.mem_append.mp hs with hs | hs
          · exact codegenLine_not_mentions_removed g r hr m stmts hline s hs
          · exact ih out1 (fun q hq => hplain q (List.mem_cons_of_mem _ hq)) hrec s hs

/-- Planning one line never introduces a plain line into the already
planned prefix: the only mutation is setting an `is_reused` flag. -/
theorem planLine_plain_mem (g : GraphCtx) (done : List WrapperLine)
    (s : MemoryPlanningState) (m m1 : MemoryPlanningLine)
    (done1 : List WrapperLine) (s1 : MemoryPlanningState)
    (h : planLine g done s m = .ok (m1, done1, s1)) :
    ∀ p, WrapperLine.plain p ∈ done1 → WrapperLine.plain p ∈ done := by
  cases m with
  | allocate b =>
    simp only [planLine] at h
    by_cases hb : b.name ∈ g.removed
    · rw [if_pos hb] at h
      cases h
      exact fun p hp => hp
    · rw [if_neg hb] at h
      by_cases hp : s.reuse_pool (buffer_reuse_key b) ≠ []
      · rw [if_pos hp] at h
        cases hpop : MemoryPlanningState.pop done s (buffer_reuse_key b) with
        | error e =>
          rw [hpop] at h
          cases h
        | ok triple =>
          obtain ⟨fb, j, s2⟩ := triple
          rw [hpop] at h
          cases h
          intro p hmem
          rcases List.mem_or_eq_of_mem_set hmem with hmem | hmem
          · exact hmem
          · cases hmem
      · rw [if_neg hp] at h
        cases h
        exact fun p hp1 => hp1
  | freeIfNotReused b fl =>
    simp only [planLine] at h
    cases fl with
    | true =>
      rw [if_pos rfl] at h
      cases h
    | false =>
      rw [if_neg Bool.false_ne_true] at h
      by_cases hb : b.name ∈ g.removed
      · rw [if_pos hb] at h
        cases h
        exact fun p hp => hp
      · rw [if_neg hb] at h
        simp only [MemoryPlanningState.push, if_neg Bool.false_ne_true] at h
        cases h
        exact fun p hp => hp
  | reuse old new =>
    simp only [planLine] at h
    by_cases hn : new.name ∈ g.removed
    · rw [if_pos hn] at h
      by_cases ho : old.name ∈ g.removed
      · rw [if_pos ho] at h
        cases h
        exact fun p hp => hp
      · rw [if_neg ho] at h
        cases h
        exact fun p hp => hp
    · rw [if_neg hn] at h
      by_cases ho : old.name ∈ g.removed
      · rw [if_pos ho] at h
        cases h
      · rw [if_neg ho] at h
        cases h
        exact fun p hp => hp
  | free b =>
    simp only [planLine] at h
    by_cases hb : b.name ∈ g.removed
    · rw [if_pos hb] at h
      cases h
      exact fun p hp => hp
    · rw [if_neg hb] at h
      cases h
      exact fun p hp => hp
  | null =>
    simp only [planLine] at h
    cases h
    exact fun p hp => hp

end Wrapper

namespace Wrapper

/-- Every plain line surviving the plan pass was already among the input
lines: the plan pass only rewrites planning lines. -/
theorem planPassGo_plain_mem (g : GraphCtx) :
    ∀ (lines done : List WrapperLine) (s : MemoryPlanningState)
      (res : List WrapperLine),
      planPassGo g lines done s = .ok res →
      ∀ p, WrapperLine.plain p ∈ res →
        WrapperLine.plain p ∈ done ∨ WrapperLine.plain p ∈ lines := by
  intro lines
  induction lines with
  | nil =>
    intro done s res h p hp
    simp only [planPassGo] at h
    cases h
    exact Or.inl hp
  | cons x rest ih =>
    intro done s res h p hp
    cases x with
    | plain q =>
      simp only [planPassGo] at h
      rcases ih _ _ _ h p hp with hmem | hmem
      · rcases List.mem_append.mp hmem with hmem | hmem
        · exact Or.inl hmem
        · simp only [List.mem_singleton] at hmem
          cases hmem
          exact Or.inr (List.mem_cons_self _ _)
      · exact Or.inr (List.mem_cons_of_mem _ hmem)
    | mpl m =>
      simp only [planPassGo] at h
      cases hline : planLine g done s m with
      | error e =>
        rw [hline] at h
        cases h
      | ok triple =>
        obtain ⟨m1, done1, s1⟩ := triple
        rw [hline] at h
        rcases ih _ _ _ h p hp with hmem | hmem
        · rcases List.mem_append.mp hmem with hmem | hmem
          · exact Or.inl (planLine_plain_mem g done s m m1 done1 s1 hline p hmem)
          · simp at hmem
        · exact Or.inr (List.mem_cons_of_mem _ hmem)

/-- Tail trimming keeps a subset of the lines. -/
theorem trimRev_subset (g : GraphCtx) :
    ∀ (l res : List WrapperLine), trimRev g l = .ok res → ∀ x ∈ res, x ∈ l := by
  intro l
  induction l with
  | nil =>
    intro res h x hx
    simp only [trimRev] at h
    cases h
    simp at hx
  | cons y rest ih =>
    intro res h x hx
    cases y with
    | plain p =>
      simp only [trimRev] at h
      cases h
      exact hx
    | mpl m =>
      simp only [trimRev] at h
      cases hm : m.nodeName? with
      | none =>
        rw [hm] at h
        simp at h
      | some n =>
        rw [hm] at h
        by_cases hout : n ∈ g.out_names
        · simp only [hout, if_true] at h
          cases h
          exact hx
        · simp only [hout, if_false] at h
          exact List.mem_cons_of_mem _ (ih res h x hx)

/-- Claim C7: removed-buffer erasure.  For every buffer name in the removed
set, no statement of the rendered output mentions that name — whether the
buffer was the subject of an Allocate, ConditionallyFree, UnconditionalFree
or either side of a Reuse event — provided the opaque plain collaborator
lines passed through verbatim do not mention it themselves. -/
theorem removed_buffer_erasure (g : GraphCtx) (lines : List WrapperLine)
    (r : String) (out : List Stmt) (hr : r ∈ g.removed)
    (hplain : ∀ p, WrapperLine.plain p ∈ lines → p.mentions r = false)
    (h : generate g lines = .ok out) : ∀ s ∈ out, s.mentions r = false := by
  unfold generate at h
  cases htr : trimTail g lines with
  | error e =>
    rw [htr] at h
    cases h
  | ok trimmed =>
    rw [htr] at h
    simp only [bind, Except.bind] at h
    cases hpl : planPass g trimmed with
    | error e =>
      simp [hpl] at h
    | ok planned =>
      simp only [hpl] at h
      have htrimmed : ∀ p, WrapperLine.plain p ∈ trimmed → p.mentions r = false := by
        intro p hp
        apply hplain
        have hmem := trimRev_subset g lines.reverse
        unfold trimTail at htr
        cases htr2 : trimRev g lines.reverse with
        | error e =>
          rw [htr2] at htr
          simp [Except.map] at htr
        | ok r0 =>
          rw [htr2] at htr
          simp only [Except.map] at htr
          cases htr
          exact List.mem_reverse.mp (hmem r0 htr2 _ (List.mem_reverse.mp hp))
      have hplanned : ∀ p, WrapperLine.plain p ∈ planned → p.mentions r = false := by
        intro p hp
        rcases planPassGo_plain_mem g trimmed [] MemoryPlanningState.init planned hpl p hp
          with hmem | hmem
        · simp at hmem
        · exact htrimmed p hmem
      exact codegenPass_not_mentions g r hr planned out hplanned h

end Wrapper

namespace Wrapper

def bufDead : Buffer := .mk "dead0" "cuda" "f32" [16] [1] .simple

def ctxDead : GraphCtx := ⟨["dead0"], [], [], ["buf3"]⟩

theorem removed_buffer_erasure_witness :
    "dead0" ∈ ctxDead.removed ∧
    generate ctxDead
        [.mpl (.allocate bufDead), .mpl (.freeIfNotReused bufDead false),
         .mpl (.allocate bufB), .plain (.other "kernel")]
      = .ok [.alloc "buf3" [16] [1] "cuda" "f32", .other "kernel"] ∧
    Stmt.mentions "dead0" (.alloc "buf3" [16] [1] "cuda" "f32") = false ∧
    Stmt.mentions "dead0" (.other "kernel") = false := by
  have hplain : ∀ p, WrapperLine.plain p ∈
      [WrapperLine.mpl (.allocate bufDead), .mpl (.freeIfNotReused bufDead false),
       .mpl (.allocate bufB), .plain (.other "kernel")] → p.mentions "dead0" = false := by
    intro p hp
    simp only [List.mem_cons, List.not_mem_nil, or_false] at hp
    rcases hp with hp | hp | hp | hp <;> first
      | (cases hp; rfl)
      | cases hp
  refine ⟨by decide, rfl, ?_, ?_⟩
  · exact removed_buffer_erasure ctxDead _ "dead0" _ (by decide) hplain rfl _
      (List.mem_cons_self _ _)
  · exact removed_buffer_erasure ctxDead _ "dead0" _ (by decide) hplain rfl _
      (by simp)

end Wrapper

namespace Wrapper

def bufIn : Buffer := .mk "in0" "cuda" "f32" [16] [1] .simple

def bufO : Buffer := .mk "o0" "cuda" "f32" [16] [1] .simple

def ctxIn : GraphCtx := ⟨[], ["in0"], [], ["o0"]⟩

/-- Claim C6 counterexample: `codegen_inplace_reuse` performs no graph-input
or constant check, so a rendered statement can release a graph input,
refuting the claim that no rendered statement ever frees one. -/
theorem inplace_reuse_releases_graph_input_counterexample :
    "in0" ∈ ctxIn.graph_inputs ∧
    codegen_inplace_reuse ctxIn ⟨[], ["in0"], []⟩ bufIn bufO =
      .ok ⟨[.mpl (.reuse bufIn bufO)], ["o0", "in0"], ["in0"]⟩ ∧
    generate ctxIn [.mpl (.reuse bufIn bufO), .plain (.other "kernel0")] =
      .ok [.rebind "o0" "in0", .release "in0", .other "kernel0"] ∧
    Stmt.mentions "in0" (.release "in0") = true := by
  refine ⟨by decide, ?_, by rfl, rfl⟩
  unfold codegen_inplace_reuse
  rw [codegen_allocation.eq_def]
  simp [bufIn, bufO, ctxIn, buffer_reuse_key, Buffer.device, Buffer.dtype,
        Buffer.size, Buffer.name]

/-- Claim C6 (amended): graph inputs and named constants never enter the
Pool — a free request for them is a no-op, and neither the allocation path
nor the inplace-reuse path ever enqueues a pooled ConditionallyFree line.
The original claim that no rendered statement releases them fails for
`codegen_inplace_reuse`, which performs no input/constant check (see the
counterexample). -/
theorem inputs_constants_never_pooled (g : GraphCtx) (st : WrapperState) (b : Buffer) :
    (b.name ∈ g.graph_inputs ∨ b.name ∈ g.constants → codegen_free g st b = st) ∧
    (∀ l ∈ (codegen_allocation g st b).lines, l ∈ st.lines ∨ l.isCondFree = false) ∧
    (∀ (st2 : WrapperState) (i o : Buffer),
        codegen_inplace_reuse g st i o = .ok st2 →
        ∀ l ∈ st2.lines, l ∈ st.lines ∨ l.isCondFree = false) := by
  refine ⟨?_, codegen_allocation_lines_no_condfree g st b, ?_⟩
  · intro h
    have hfalse : can_reuse g st b = false := by
      unfold can_reuse
      rw [if_pos]
      rcases h with h | h
      · exact Or.inr (Or.inl h)
      · exact Or.inr (Or.inr (Or.inl h))
    unfold codegen_free
    rw [hfalse, if_neg Bool.false_ne_true]
  · intro st2 i o h l hl
    unfold codegen_inplace_reuse at h
    by_cases hk : buffer_reuse_key i = buffer_reuse_key o
    · rw [if_pos hk] at h
      cases h
      rcases List.mem_append.mp hl with hl | hl
      · rcases codegen_allocation_lines_no_condfree g st i l hl with hl | hl
        · exact Or.inl hl
        · exact Or.inr hl
      · simp only [List.mem_singleton] at hl
        subst hl
        exact Or.inr rfl
    · rw [if_neg hk] at h
      cases h

theorem inputs_constants_never_pooled_witness :
    ("in0" ∈ ctxIn.graph_inputs ∨ "in0" ∈ ctxIn.constants) ∧
    codegen_free ctxIn ⟨[], [], []⟩ bufIn = ⟨[], [], []⟩ ∧
    (∀ l ∈ (codegen_allocation ctxIn ⟨[], [], []⟩ bufIn).lines,
      l ∈ ([] : List WrapperLine) ∨ l.isCondFree = false) ∧
    (∀ (st2 : WrapperState) (i o : Buffer),
        codegen_inplace_reuse ctxIn ⟨[], [], []⟩ i o = .ok st2 →
        ∀ l ∈ st2.lines, l ∈ ([] : List WrapperLine) ∨ l.isCondFree = false) := by
  have h := inputs_constants_never_pooled ctxIn ⟨[], [], []⟩ bufIn
  exact ⟨Or.inl (by decide), h.1 (Or.inl (by decide)), h.2.1, h.2.2⟩

end Wrapper
